import Mathlib

/-!
Shallow embedding of `hubot-impersonate` (src/scripts/impersonate.js).

The script's own logic (configuration defaults, the per-user model cache
`robotRetrieve`/`robotStore`, and the `robot.hear` message handler) is
translated directly from the source.  The script's three runtime
dependencies (`markov-respond` ~6.0.0, `msgpack` ~0.2.4, `underscore`
~1.7.0, declared in the header comment of the source file) are not part of
this repository; where a claim depends on their behaviour the definitions
below are modelled from the specification (the Tokenizer, Sequence Model
and Model Codec sections), and each such definition says so in its doc
comment.

JavaScript peculiarities that matter here and are modelled explicitly:
the `robot.hear` callback reads a variable `user` that is not defined in
any enclosing scope, so evaluating `user.room` throws a `ReferenceError`;
this is modelled by giving the handler the (absent) binding for `user` as
an `Option` argument and returning an `Except` error when it is `none`.
-/

/-! ## Tokenizer (modelled from the spec, section 4.1) -/

/-- Keep only alphanumeric characters of a token (punctuation stripping). -/
def stripToken (cs : List Char) : List Char := cs.filter Char.isAlphanum

/-- Lower-case every character of a token (case folding). -/
def lowerToken (cs : List Char) : List Char := cs.map Char.toLower

/-- Split a character list on whitespace runs; `acc` holds the current word
reversed.  Empty fragments (from leading / repeated whitespace) are dropped. -/
def splitWsAux : List Char → List Char → List (List Char)
  | [], acc => if acc.isEmpty then [] else [acc.reverse]
  | c :: cs, acc =>
    if c.isWhitespace then
      if acc.isEmpty then splitWsAux cs [] else acc.reverse :: splitWsAux cs []
    else splitWsAux cs (c :: acc)

/-- Modelled from the spec: `tokenize(text, caseSensitive, stripPunctuation)`
(the tokenizer lives in the `markov-respond` dependency, not in this
repository).  Splits on whitespace runs, lower-cases unless case-sensitive,
strips non-alphanumeric characters when requested and drops tokens that
become empty. -/
def tokenize (caseSensitive stripPunctuation : Bool) (text : String) : List String :=
  let ws := splitWsAux text.toList []
  let ws := if caseSensitive then ws else ws.map lowerToken
  let ws := if stripPunctuation then (ws.map stripToken).filter (fun t => !t.isEmpty) else ws
  ws.map (fun cs => String.mk cs)

/-! ## Sequence Model (modelled from the spec, section 4.2)

The `Markov` object comes from the `markov-respond` dependency; the script
constructs it as `new Markov(MIN_WORDS, CASE_SENSITIVE, STRIP_PUNCTUATION)`
and calls `train`, `respond`, `import` and `export` on it.  The model below
follows the spec's description of those operations (order k = 1, with a
synthetic start-of-sequence context). -/

/-- Contexts are tuples of the most recent k tokens; `[]` is the synthetic
start-of-sequence context. -/
abbrev Context := List String

/-- Successor-token observation counts for one context. -/
abbrev SuccCounts := List (String × Nat)

/-- Transition Table: context to successor counts. -/
abbrev TransTable := List (Context × SuccCounts)

/-- Snapshot handed to the codec: the plain structural content of the
Transition Table (the flags are construction parameters, re-supplied by
`robotRetrieve` when it builds a model). -/
abbrev Snapshot := TransTable

/-- Modelled from the spec: the Sequence Model state owned by the
`markov-respond` `Markov` object. -/
structure Markov where
  minWords : Nat
  caseSensitive : Bool
  stripPunctuation : Bool
  table : TransTable
  deriving DecidableEq, Repr

/-- Increment the count for `tok`, inserting it with count 1 if absent. -/
def bump : SuccCounts → String → SuccCounts
  | [], tok => [(tok, 1)]
  | (t, n) :: rest, tok =>
    if t = tok then (t, n + 1) :: rest else (t, n) :: bump rest tok

/-- Record one (context, next-token) observation in the table. -/
def addObs : TransTable → Context → String → TransTable
  | [], ctx, tok => [(ctx, [(tok, 1)])]
  | (c, sc) :: rest, ctx, tok =>
    if c = ctx then (c, bump sc tok) :: rest else (c, sc) :: addObs rest ctx tok

/-- Successive (context, next-token) pairs after the first token. -/
def pairsAux (prev : String) : List String → List (Context × String)
  | [] => []
  | x :: xs => ([prev], x) :: pairsAux x xs

/-- All (context, next-token) pairs of a token sequence, starting with the
synthetic start-of-sequence context for the first token. -/
def pairsOf : List String → List (Context × String)
  | [] => []
  | t :: ts => (([] : Context), t) :: pairsAux t ts

/-- Modelled from the spec: `train(text)` tokenizes with the model's flags,
does nothing when fewer than `minWords` tokens result, and otherwise
increments the count of every (context, next-token) pair. -/
def Markov.train (m : Markov) (text : String) : Markov :=
  let toks := tokenize m.caseSensitive m.stripPunctuation text
  if toks.length < m.minWords then m
  else { m with table := (pairsOf toks).foldl (fun tb p => addObs tb p.1 p.2) m.table }

/-- Look up a context's successor counts. -/
def lookupCtx : TransTable → Context → Option SuccCounts
  | [], _ => none
  | (c, sc) :: rest, ctx => if c = ctx then some sc else lookupCtx rest ctx

/-- Total observation weight of a successor distribution. -/
def totalWeight (sc : SuccCounts) : Nat := (sc.map (fun p => p.2)).sum

/-- Weighted choice by cumulative-weight order: pick the successor whose
cumulative count range contains `r`. -/
def pickWeighted : SuccCounts → Nat → Option String
  | [], _ => none
  | (t, n) :: rest, r => if r < n then some t else pickWeighted rest (r - n)

/-- Modelled from the spec: bounded maximum output length for generation
(a fixed policy choice; unbounded generation would be a correctness bug). -/
def maxResponseLength : Nat := 50

/-- Generation loop: sample successors of the current context until the
context has no successors or the length bound is hit.  `rng` supplies one
raw random value per step (reduced modulo the total weight). -/
def genLoop (tbl : TransTable) : Nat → Context → List Nat → List String
  | 0, _, _ => []
  | fuel + 1, ctx, rng =>
    match lookupCtx tbl ctx with
    | none => []
    | some sc =>
      let tw := totalWeight sc
      if tw = 0 then []
      else
        match pickWeighted sc (rng.headD 0 % tw) with
        | none => []
        | some t => t :: genLoop tbl fuel [t] rng.tail

/-- Modelled from the spec: the stimulus optionally seeds the starting
context; the first stimulus token that is a known context is used, else the
synthetic start-of-sequence context (fixed policy choice). -/
def startContext (m : Markov) (toks : List String) : Context :=
  match toks.find? (fun t => (lookupCtx m.table [t]).isSome) with
  | some t => [t]
  | none => []

/-- Join generated tokens with single spaces. -/
def joinWords : List String → String
  | [] => ""
  | [w] => w
  | w :: ws => w ++ " " ++ joinWords ws

/-- Modelled from the spec: `respond(text)` tokenizes the stimulus, walks the
table from the starting context taking weighted random successors, and joins
the generated tokens with spaces; with no generated tokens (in particular on
an entirely empty table) the result is the empty string. -/
def Markov.respond (m : Markov) (rng : List Nat) (text : String) : String :=
  let toks := tokenize m.caseSensitive m.stripPunctuation text
  joinWords (genLoop m.table maxResponseLength (startContext m toks) rng)

/-- Modelled from the spec: `export()` produces the plain structural snapshot
of the Transition Table (named `export` in `markov-respond`; that word is a
Lean keyword). -/
def Markov.exportSnapshot (m : Markov) : Snapshot := m.table

/-- Modelled from the spec: `import(data)` replaces the model state wholesale
with the given snapshot (named `import` in `markov-respond`; that word is a
Lean keyword). -/
def Markov.importSnapshot (m : Markov) (s : Snapshot) : Markov := { m with table := s }

/-! ## Model Codec (modelled from the spec, section 4.3)

The script serializes with `msgpack.pack` / `msgpack.unpack` (the `msgpack`
dependency, not part of this repository).  Modelled from the spec: a codec
`encode(snapshot) -> bytes` / `decode(bytes) -> snapshot` that round-trips
exactly, with malformed or empty input decoding to no valid snapshot (the
script's `_.isObject` guard then substitutes the empty snapshot).  Bytes are
modelled as `List Nat`; the encoding is length-prefixed. -/

/-- Encode a natural number as one byte of the stream. -/
def encNat (n : Nat) : List Nat := [n]

/-- Encode a string: length, then the code points of its characters. -/
def encString (s : String) : List Nat := s.length :: s.toList.map Char.toNat

/-- Encode a list: length, then the concatenated encodings of the elements. -/
def encListWith (f : α → List Nat) (xs : List α) : List Nat :=
  xs.length :: (xs.map f).flatten

/-- Encode one successor entry (token, count). -/
def encPairSN (p : String × Nat) : List Nat := encString p.1 ++ encNat p.2

/-- Encode one table entry (context, successor counts). -/
def encEntry (e : Context × SuccCounts) : List Nat :=
  encListWith encString e.1 ++ encListWith encPairSN e.2

/-- Modelled from the spec: `encode(snapshot) -> bytes`. -/
def encodeBytes (s : Snapshot) : List Nat := encListWith encEntry s

/-- Read one natural number from the stream. -/
def parseNat : List Nat → Option (Nat × List Nat)
  | [] => none
  | n :: rest => some (n, rest)

/-- Read exactly `k` characters from the stream. -/
def parseChars : Nat → List Nat → Option (List Char × List Nat)
  | 0, bs => some ([], bs)
  | _ + 1, [] => none
  | k + 1, b :: bs =>
    match parseChars k bs with
    | none => none
    | some (cs, rest) => some (Char.ofNat b :: cs, rest)

/-- Read one length-prefixed string. -/
def parseString (bs : List Nat) : Option (String × List Nat) :=
  match parseNat bs with
  | none => none
  | some (n, bs) =>
    match parseChars n bs with
    | none => none
    | some (cs, rest) => some (String.mk cs, rest)

/-- Read exactly `k` values using the element reader `p`. -/
def parseListWith (p : List Nat → Option (α × List Nat)) :
    Nat → List Nat → Option (List α × List Nat)
  | 0, bs => some ([], bs)
  | k + 1, bs =>
    match p bs with
    | none => none
    | some (x, bs) =>
      match parseListWith p k bs with
      | none => none
      | some (xs, rest) => some (x :: xs, rest)

/-- Read one length-prefixed list using the element reader `p`. -/
def parseListPrefixed (p : List Nat → Option (α × List Nat)) (bs : List Nat) :
    Option (List α × List Nat) :=
  match parseNat bs with
  | none => none
  | some (n, bs) => parseListWith p n bs

/-- Read one successor entry (token, count). -/
def parsePairSN (bs : List Nat) : Option ((String × Nat) × List Nat) :=
  match parseString bs with
  | none => none
  | some (s, bs) =>
    match parseNat bs with
    | none => none
    | some (n, rest) => some ((s, n), rest)

/-- Read one table entry (context, successor counts). -/
def parseEntry (bs : List Nat) : Option ((Context × SuccCounts) × List Nat) :=
  match parseListPrefixed parseString bs with
  | none => none
  | some (ctx, bs) =>
    match parseListPrefixed parsePairSN bs with
    | none => none
    | some (sc, rest) => some ((ctx, sc), rest)

/-- Modelled from the spec: `decode(bytes) -> snapshot`; `none` stands for
input that does not decode to a valid snapshot object (absent, truncated or
otherwise malformed persisted data). -/
def decodeBytes (bs : List Nat) : Option Snapshot :=
  match parseListPrefixed parseEntry bs with
  | some (s, []) => some s
  | _ => none

/-! ## Script code translated from src/scripts/impersonate.js -/

/-- Operating modes (line 31 of the source): one of `train`, `train_respond`,
`respond`; an unrecognized value falls back to `train`, so exactly these
three are representable. -/
inductive Mode
  | train
  | train_respond
  | respond
  deriving DecidableEq, Repr

/-- Configuration read from the environment at load time (lines 30-37).
Defaults taken from the source: MIN_WORDS 1, MODE 'train', CASE_SENSITIVE
false, STRIP_PUNCTUATION false, FREQUENCY_THRESHOLD 50.  `name` and `alias`
are `robot.name` / `robot.alias`, interpolated into the bot-address regular
expression (line 75). -/
structure Config where
  name : String
  robotAlias : Option String := none
  minWords : Nat := 1
  mode : Mode := Mode.train
  caseSensitive : Bool := false
  stripPunctuation : Bool := false
  frequencyThreshold : Nat := 50
  deriving DecidableEq, Repr

/-- RESTRICTED_AREAS (line 37 of the source): the hard-coded list
`['general']`. -/
def RESTRICTED_AREAS : List String := ["general"]

/-- Line 39: `shouldTrain` is true in modes `train` and `train_respond`. -/
def shouldTrain (cfg : Config) : Bool :=
  match cfg.mode with
  | Mode.train => true
  | Mode.train_respond => true
  | Mode.respond => false

/-- Line 41: `shouldRespondMode` is true in modes `respond` and
`train_respond`. -/
def shouldRespondMode (cfg : Config) : Bool :=
  match cfg.mode with
  | Mode.train => false
  | Mode.train_respond => true
  | Mode.respond => true

/-- Association-list lookup, modelling JavaScript object property access. -/
def getA : List (String × α) → String → Option α
  | [], _ => none
  | (k, v) :: rest, key => if k = key then some v else getA rest key

/-- Association-list update, modelling JavaScript object property
assignment (replace if present, append otherwise). -/
def setA : List (String × α) → String → α → List (String × α)
  | [], key, v => [(key, v)]
  | (k, w) :: rest, key, v =>
    if k = key then (k, v) :: rest else (k, w) :: setA rest key v

/-- Cache entries pair the model with an allocation identity `instId`, so
that "the identical instance (reference equality)" is expressible: two
lookups return the same JavaScript object exactly when they return entries
with the same `instId`. -/
structure CacheEntry where
  instId : Nat
  model : Markov
  deriving DecidableEq, Repr

/-- Process state owned by `start(robot)`: the brain key-value store
(`robot.brain`), the per-user model cache (`var cache = {}`, line 69), the
allocation counter backing `instId`, and the `impersonating` closure
variable (line 63; the source overloads `false` with a user id, modelled as
an `Option`). -/
structure BotState where
  brain : List (String × List Nat)
  cache : List (String × CacheEntry)
  nextId : Nat
  impersonating : Option String
  deriving DecidableEq, Repr

/-- Key under which a user's model is persisted (lines 44 and 52):
the stable prefix concatenated with the user identifier. -/
def storeKey (userId : String) : String := "impersonateMarkov-" ++ userId

/-- Observable side effects of one handler run: a brain write
(`robot.brain.set`, line 44) or a reply scheduled via `setTimeout`
(lines 134-136; the delay is a timing detail carrying no correctness
obligation, so only the sent text is recorded). -/
inductive Effect
  | brainSet (key : String) (value : List Nat)
  | scheduleSend (text : String)
  deriving DecidableEq, Repr

/-- Lines 43-45, `robotStore`: encode the model's exported snapshot and
write it to the brain under the user's key. -/
def robotStore (s : BotState) (userId : String) (m : Markov) : BotState × Effect :=
  ({ s with brain := setA s.brain (storeKey userId) (encodeBytes m.exportSnapshot) },
   Effect.brainSet (storeKey userId) (encodeBytes m.exportSnapshot))

/-- Line 55: `new Markov(MIN_WORDS, CASE_SENSITIVE, STRIP_PUNCTUATION)`. -/
def newMarkov (cfg : Config) : Markov :=
  { minWords := cfg.minWords
    caseSensitive := cfg.caseSensitive
    stripPunctuation := cfg.stripPunctuation
    table := [] }

/-- Lines 47-60, `robotRetrieve`: return the cached model if present;
otherwise read the persisted bytes (absent data becomes the empty byte
string via `|| ''`), decode them (`msgpack.unpack`), replace a non-object
result by `{}` (`_.isObject(data) ? data : {}`), build a fresh `Markov`
and import the snapshot into it, cache it and return it. -/
def robotRetrieve (cfg : Config) (s : BotState) (userId : String) :
    CacheEntry × BotState :=
  match getA s.cache userId with
  | some e => (e, s)
  | none =>
    let bytes := (getA s.brain (storeKey userId)).getD []
    let data := (decodeBytes bytes).getD []
    let m := (newMarkov cfg).importSnapshot data
    let e : CacheEntry := { instId := s.nextId, model := m }
    (e, { s with cache := setA s.cache userId e, nextId := s.nextId + 1 })

/-- Modelled from underscore ~1.7.0 (dependency declared at line 6 of the
source): `_.random(min, max)` returns
`min + Math.floor(Math.random() * (max - min + 1))`, an integer between
`min` and `max` INCLUSIVE.  The `Math.random()` output in `[0,1)` is
modelled as the fraction `num / den` with `num < den`, under which the
floor is natural-number division. -/
def underscoreRandom (num den lo hi : Nat) : Nat :=
  lo + num * (hi - lo + 1) / den

/-! ### The bot-address pattern (line 75)

`new RegExp('^[@]?(' + robot.name + ')' + (robot.alias ? '|(' + robot.alias + ')' : '') + '[:,]?\\s', 'i')`.

Without an alias the pattern is `^[@]?(name)[:,]?\s`.  With an alias the
alternation binds loosely, giving `^[@]?(name)` OR `(alias)[:,]?\s` — the
first branch needs no separator and the second is unanchored.  The names
are matched literally (the source interpolates them into the pattern raw;
typical robot names contain no regular-expression metacharacters), and the
`i` flag is modelled by case-folding both sides. -/

/-- Case-insensitive literal match of `pat` at the head of `cs`; returns the
rest on success. -/
def stripCI : List Char → List Char → Option (List Char)
  | [], cs => some cs
  | _ :: _, [] => none
  | p :: ps, c :: cs => if p.toLower = c.toLower then stripCI ps cs else none

/-- Match `[:,]?\s` at the head of the list: an optional ':' or ','
separator, then one whitespace character. -/
def sepSpace : List Char → Bool
  | [] => false
  | [c] => c.isWhitespace
  | c :: d :: _ => ((c = ':' ∨ c = ',') ∧ d.isWhitespace) ∨ c.isWhitespace

/-- Match `name[:,]?\s` at the head of the list, case-insensitively. -/
def nameSep (name : String) (cs : List Char) : Bool :=
  match stripCI name.toList cs with
  | some rest => sepSpace rest
  | none => false

/-- Match `^[@]?(name)[:,]?\s` (the whole pattern when no alias is set). -/
def matchNoAlias (name : String) (cs : List Char) : Bool :=
  (match cs with
   | '@' :: rest => nameSep name rest
   | _ => false) ||
  nameSep name cs

/-- Match `^[@]?(name)` (branch one of the two-branch pattern built when an
alias is set: nothing after the name is required). -/
def atNamePrefixOnly (name : String) (cs : List Char) : Bool :=
  (match cs with
   | '@' :: rest => (stripCI name.toList rest).isSome
   | _ => false) ||
  (stripCI name.toList cs).isSome

/-- Match `(alias)[:,]?\s` anywhere in the list (branch two of the
two-branch pattern: it carries no `^` anchor). -/
def aliasAnywhere (a : String) : List Char → Bool
  | [] => nameSep a []
  | c :: cs => nameSep a (c :: cs) || aliasAnywhere a cs

/-- Line 75: `hubotMessageRegex.test(text)`. -/
def hubotMessageTest (name : String) (robotAlias : Option String) (text : String) : Bool :=
  match robotAlias with
  | none => matchNoAlias name text.toList
  | some a => atNamePrefixOnly name text.toList || aliasAnywhere a text.toList

/-! ### The `robot.hear` handler (lines 113-140) -/

/-- JavaScript runtime faults that the handler can raise.  The handler body
reads a variable `user` (lines 114 and 129) that is not declared in any
enclosing scope — the `var user` declarations at lines 85, 100 and 144 are
local to other callbacks — so evaluating `user.room` throws
`ReferenceError: user is not defined`. -/
inductive JsError
  | referenceError (name : String)
  deriving DecidableEq, Repr

/-- One heard chat message: `msg.message.text`, `msg.message.user.id` and
`msg.message.room` (an absent text is modelled as the empty string, which
the `if (text && ...)` guard treats identically). -/
structure Msg where
  text : String
  userId : String
  room : String
  deriving DecidableEq, Repr

/-- The object a variable named `user` would hold if it were in scope; only
its `room` property is read by the handler. -/
structure RoomUser where
  room : String
  deriving DecidableEq, Repr

/-- Lines 119-124, the training branch: retrieve the user's model, train it
in place (the cache keeps the same instance, now mutated), and store the
updated snapshot under the user's key. -/
def trainStep (cfg : Config) (s : BotState) (msg : Msg) : BotState × List Effect :=
  let r := robotRetrieve cfg s msg.userId
  let m2 := r.1.model.train msg.text
  let s2 := { r.2 with cache := setA r.2.cache msg.userId { instId := r.1.instId, model := m2 } }
  let r3 := robotStore s2 msg.userId m2
  (r3.1, [r3.2])

/-- Lines 130-136, the response branch: retrieve the impersonated user's
model, generate a response to the heard text, and schedule sending it
(unconditionally — the source has no emptiness check on `markovResponse`). -/
def respondStep (cfg : Config) (rng : List Nat) (s : BotState) (msg : Msg)
    (imp : String) : BotState × List Effect :=
  let r := robotRetrieve cfg s imp
  (r.2, [Effect.scheduleSend (r.1.model.respond rng msg.text)])

/-- Lines 119-124 as guarded by `shouldTrain()`: the state and effects after
the training branch (a no-op in mode `respond`). -/
def afterTrainPart (cfg : Config) (s : BotState) (msg : Msg) : BotState × List Effect :=
  if shouldTrain cfg then trainStep cfg s msg else (s, [])

/-- Line 129: the response gate `shouldRespond() && (_.random(0, 100) >
FREQUENCY_THRESHOLD) && RESTRICTED_AREAS[0] != user.room` applied to the
state `st` left by the training branch.  `shouldRespond()` is
`shouldRespondMode() && impersonating`, with the truthiness of the
overloaded `impersonating` variable modelled by the `Option` match. -/
def hearRespondPart (cfg : Config) (u : RoomUser) (draw : Nat) (rng : List Nat)
    (msg : Msg) (st : BotState × List Effect) : BotState × List Effect :=
  match st.1.impersonating with
  | some imp =>
    if shouldRespondMode cfg = true ∧ draw > cfg.frequencyThreshold ∧
        RESTRICTED_AREAS.headD "" ≠ u.room then
      let rs := respondStep cfg rng st.1 msg imp
      (rs.1, st.2 ++ rs.2)
    else st
  | none => st

/-- Lines 115-138, the handler body inside the outer room guard.  `u` is the
value of the `user` variable (whose lookup already succeeded to get here),
`draw` the value of `_.random(0, 100)` at line 129, `rng` the random source
consumed by `respond`. -/
def hearInner (cfg : Config) (u : RoomUser) (draw : Nat) (rng : List Nat)
    (s : BotState) (msg : Msg) : BotState × List Effect :=
  if msg.text ≠ "" ∧ hubotMessageTest cfg.name cfg.robotAlias msg.text = false then
    hearRespondPart cfg u draw rng msg (afterTrainPart cfg s msg)
  else (s, [])

/-- Lines 113-140, the full `robot.hear(/.*/)` callback.  `userVar` is the
binding the surrounding scopes provide for the variable `user`; evaluating
`RESTRICTED_AREAS[0] != user.room` (line 114) first resolves `user`, which
throws a `ReferenceError` when the variable is unbound. -/
def hearHandler (cfg : Config) (userVar : Option RoomUser) (draw : Nat)
    (rng : List Nat) (s : BotState) (msg : Msg) :
    Except JsError (BotState × List Effect) :=
  match userVar with
  | none => Except.error (JsError.referenceError "user")
  | some u =>
    if RESTRICTED_AREAS.headD "" ≠ u.room then Except.ok (hearInner cfg u draw rng s msg)
    else Except.ok (s, [])

/-- The handler as it actually runs: no enclosing scope of the `robot.hear`
callback declares `user`, so the binding is absent. -/
def hearHandlerActual (cfg : Config) (draw : Nat) (rng : List Nat)
    (s : BotState) (msg : Msg) : Except JsError (BotState × List Effect) :=
  hearHandler cfg none draw rng s msg

/-- Effects produced by one handler result (a thrown handler produced none). -/
def hearEffects (r : Except JsError (BotState × List Effect)) : List Effect :=
  match r with
  | Except.ok p => p.2
  | Except.error _ => []

/-- State after one handler result; a thrown handler leaves the prior state
`s` in place. -/
def hearState (s : BotState) (r : Except JsError (BotState × List Effect)) : BotState :=
  match r with
  | Except.ok p => p.1
  | Except.error _ => s

/-! ### Process operation sequences

One process runs a sequence of events.  The only code that touches the
model cache or the brain is the `robot.hear` handler; the command handlers
(`impersonate <user>`, `stop impersonating`) additionally reassign the
`impersonating` closure variable.  A thrown handler leaves the state as it
was (the host catches listener errors; nothing was mutated before the
throw). -/

/-- One heard chat event with its ambient inputs: the (absent) `user`
binding, the value drawn by `_.random(0, 100)`, the random source for
generation, and the message. -/
structure HearEvent where
  userVar : Option RoomUser
  draw : Nat
  rng : List Nat
  msg : Msg
  deriving Repr

/-- One event of normal operation. -/
inductive Op
  | hear (ev : HearEvent)
  | setImpersonating (v : Option String)
  deriving Repr

/-- Apply one event to the process state. -/
def runOp (cfg : Config) (s : BotState) : Op → BotState
  | Op.hear ev => hearState s (hearHandler cfg ev.userVar ev.draw ev.rng s ev.msg)
  | Op.setImpersonating v => { s with impersonating := v }

/-- Apply a sequence of events to the process state. -/
def runOps (cfg : Config) (s : BotState) (ops : List Op) : BotState :=
  ops.foldl (runOp cfg) s

/-- Identity of the model instance cached for a user, if any: two lookups
return the same JavaScript object exactly when this value agrees. -/
def cacheInst (s : BotState) (u : String) : Option Nat :=
  (getA s.cache u).map CacheEntry.instId

/-! ### Concrete sample inputs used by the witnesses -/

/-- Sample configuration: defaults of the source (mode `train`,
threshold 50, minimum word count 1), robot name `hubot`, no alias. -/
def cfgTrain : Config := { name := "hubot" }

/-- Sample configuration in mode `respond` with the default threshold. -/
def cfgRespond : Config := { name := "hubot", mode := Mode.respond }

/-- Sample pristine process state: empty brain, empty cache, nobody
impersonated. -/
def stateEmpty : BotState :=
  { brain := [], cache := [], nextId := 0, impersonating := none }

/-- Sample process state in which user `v` is being impersonated. -/
def stateImp : BotState :=
  { brain := [], cache := [], nextId := 0, impersonating := some "v" }

/-- Sample value for the `user` variable, were it bound: an unrestricted
room. -/
def userLobby : RoomUser := { room := "lobby" }

/-- Sample ordinary message. -/
def msgHello : Msg := { text := "hello there", userId := "u1", room := "lobby" }

/-- Sample message sent in the restricted room. -/
def msgGeneral : Msg := { text := "hello there", userId := "u1", room := "general" }

/-- Sample message addressed to the robot. -/
def msgAddressed : Msg := { text := "hubot: hello", userId := "u1", room := "lobby" }

/-- Sample model with a minimum word count of 3. -/
def markovMin3 : Markov :=
  { minWords := 3, caseSensitive := false, stripPunctuation := false, table := [] }

/-! ## Codec round-trip -/

/-- Re-packing the code point of a character gives the character back. -/
theorem char_ofNat_toNat (c : Char) : Char.ofNat c.toNat = c := by
  have hv : c.toNat.isValidChar := c.valid
  apply Char.eq_of_val_eq
  rw [Char.ofNat, dif_pos hv]
  show UInt32.mk (BitVec.ofNatLt c.toNat _) = c.val
  apply UInt32.eq_of_toBitVec_eq
  apply BitVec.eq_of_toNat_eq
  rfl

/-- Reading back an encoded character run returns it unchanged. -/
theorem parseChars_enc (cs : List Char) (r : List Nat) :
    parseChars cs.length (cs.map Char.toNat ++ r) = some (cs, r) := by
  induction cs with
  | nil => rfl
  | cons c cs ih => simp [parseChars, ih, char_ofNat_toNat]

/-- Reading back an encoded string returns it unchanged. -/
theorem parseString_enc (s : String) (r : List Nat) :
    parseString (encString s ++ r) = some (s, r) := by
  cases s with
  | mk data =>
    have h := parseChars_enc data r
    simp only [encString, String.length, String.toList, List.cons_append]
    simp [parseString, parseNat, h]

/-- Reading back an encoded list returns it unchanged, given that the
element reader inverts the element encoder. -/
theorem parseListWith_enc (p : List Nat → Option (α × List Nat)) (f : α → List Nat)
    (hp : ∀ x r, p (f x ++ r) = some (x, r)) (xs : List α) (r : List Nat) :
    parseListWith p xs.length ((xs.map f).flatten ++ r) = some (xs, r) := by
  induction xs with
  | nil => rfl
  | cons x xs ih => simp [parseListWith, List.append_assoc, hp, ih]

/-- Reading back a length-prefixed encoded list returns it unchanged. -/
theorem parseListPrefixed_enc (p : List Nat → Option (α × List Nat)) (f : α → List Nat)
    (hp : ∀ x r, p (f x ++ r) = some (x, r)) (xs : List α) (r : List Nat) :
    parseListPrefixed p (encListWith f xs ++ r) = some (xs, r) := by
  simp [parseListPrefixed, encListWith, parseNat, parseListWith_enc p f hp]

/-- Reading back an encoded successor entry returns it unchanged. -/
theorem parsePairSN_enc (pr : String × Nat) (r : List Nat) :
    parsePairSN (encPairSN pr ++ r) = some (pr, r) := by
  cases pr with
  | mk a n => simp [parsePairSN, encPairSN, encNat, List.append_assoc, parseString_enc, parseNat]

/-- Reading back an encoded table entry returns it unchanged. -/
theorem parseEntry_enc (e : Context × SuccCounts) (r : List Nat) :
    parseEntry (encEntry e ++ r) = some (e, r) := by
  cases e with
  | mk ctx sc =>
    simp [parseEntry, encEntry, List.append_assoc,
      parseListPrefixed_enc parseString encString parseString_enc,
      parseListPrefixed_enc parsePairSN encPairSN parsePairSN_enc]

/-- C8: for every valid model snapshot, including the empty one, decoding
the encoding yields exactly the snapshot that was encoded, so the
store-then-retrieve path through the codec reconstructs the persisted
state. -/
theorem decode_encode_roundtrip (S : Snapshot) : decodeBytes (encodeBytes S) = some S := by
  have h := parseListPrefixed_enc parseEntry encEntry parseEntry_enc S []
  rw [List.append_nil] at h
  simp [decodeBytes, encodeBytes, h]

/-! ## Cache lemmas -/

/-- Looking up the key just assigned returns the assigned value. -/
theorem getA_setA_self (l : List (String × α)) (k : String) (v : α) :
    getA (setA l k v) k = some v := by
  induction l with
  | nil => simp [setA, getA]
  | cons kv rest ih =>
    obtain ⟨k1, v1⟩ := kv
    by_cases h : k1 = k <;> simp [setA, getA, h, ih]

/-- Assignment to one key leaves lookups of other keys unchanged. -/
theorem getA_setA_ne (l : List (String × α)) (k k2 : String) (v : α) (h : k2 ≠ k) :
    getA (setA l k v) k2 = getA l k2 := by
  induction l with
  | nil =>
    have hne : ¬ k = k2 := fun hh => h hh.symm
    simp [setA, getA, hne]
  | cons kv rest ih =>
    obtain ⟨k1, v1⟩ := kv
    by_cases h1 : k1 = k
    · subst h1
      have hne : ¬ k1 = k2 := fun hh => h hh.symm
      simp [setA, getA, hne]
    · simp [setA, getA, h1, ih]

/-- A cache hit returns the cached entry and leaves the state untouched
(nothing is decoded, nothing is constructed). -/
theorem robotRetrieve_hit (cfg : Config) (s : BotState) (u : String) (e : CacheEntry)
    (h : getA s.cache u = some e) : robotRetrieve cfg s u = (e, s) := by
  simp [robotRetrieve, h]

/-- After any retrieval, the returned entry is the cached one. -/
theorem robotRetrieve_cache_self (cfg : Config) (s : BotState) (u : String) :
    getA (robotRetrieve cfg s u).2.cache u = some (robotRetrieve cfg s u).1 := by
  unfold robotRetrieve
  cases hg : getA s.cache u with
  | some e => simp [hg]
  | none => simp [hg, getA_setA_self]

/-- Retrieval for one user leaves other users' cache entries unchanged. -/
theorem robotRetrieve_cache_other (cfg : Config) (s : BotState) (u u2 : String)
    (h : u2 ≠ u) :
    getA (robotRetrieve cfg s u).2.cache u2 = getA s.cache u2 := by
  unfold robotRetrieve
  cases hg : getA s.cache u with
  | some e => simp [hg]
  | none => simp [hg, getA_setA_ne _ _ _ _ h]

/-- Retrieval never writes the brain. -/
theorem robotRetrieve_brain (cfg : Config) (s : BotState) (u : String) :
    (robotRetrieve cfg s u).2.brain = s.brain := by
  unfold robotRetrieve
  cases hg : getA s.cache u <;> simp [hg]

/-- Retrieval never changes who is being impersonated. -/
theorem robotRetrieve_impersonating (cfg : Config) (s : BotState) (u : String) :
    (robotRetrieve cfg s u).2.impersonating = s.impersonating := by
  unfold robotRetrieve
  cases hg : getA s.cache u <;> simp [hg]

/-- Retrieval (for any user) preserves the identity of a cached instance. -/
theorem cacheInst_retrieve (cfg : Config) (s : BotState) (u u2 : String) (i : Nat)
    (h : cacheInst s u = some i) : cacheInst (robotRetrieve cfg s u2).2 u = some i := by
  by_cases he : u = u2
  · subst he
    obtain ⟨e, hg, hi⟩ := Option.map_eq_some'.mp h
    rw [cacheInst, robotRetrieve_hit cfg s u e hg, hg, Option.map_some', hi]
  · rw [cacheInst, robotRetrieve_cache_other cfg s u2 u he]
    exact h

/-- The training branch preserves the identity of every cached instance:
for the trained user the cache keeps the same (mutated-in-place) object,
and other users' entries are untouched. -/
theorem cacheInst_trainStep (cfg : Config) (s : BotState) (msg : Msg) (u : String)
    (i : Nat) (h : cacheInst s u = some i) :
    cacheInst (trainStep cfg s msg).1 u = some i := by
  unfold trainStep robotStore
  by_cases hu : msg.userId = u
  · subst hu
    obtain ⟨e, hg, hi⟩ := Option.map_eq_some'.mp h
    rw [robotRetrieve_hit cfg s msg.userId e hg]
    simp [cacheInst, getA_setA_self, hi]
  · have hne : u ≠ msg.userId := fun hh => hu hh.symm
    simp only [cacheInst]
    rw [getA_setA_ne _ _ _ _ hne, robotRetrieve_cache_other cfg s msg.userId u hne]
    exact h

/-- The state left by the training branch (whether or not it runs). -/
theorem cacheInst_afterTrainPart (cfg : Config) (s : BotState) (msg : Msg) (u : String)
    (i : Nat) (h : cacheInst s u = some i) :
    cacheInst (afterTrainPart cfg s msg).1 u = some i := by
  unfold afterTrainPart
  split
  · exact cacheInst_trainStep cfg s msg u i h
  · exact h

/-- The response branch preserves the identity of every cached instance. -/
theorem cacheInst_hearRespondPart (cfg : Config) (u2 : RoomUser) (draw : Nat)
    (rng : List Nat) (msg : Msg) (st : BotState × List Effect) (u : String) (i : Nat)
    (h : cacheInst st.1 u = some i) :
    cacheInst (hearRespondPart cfg u2 draw rng msg st).1 u = some i := by
  unfold hearRespondPart
  cases himp : st.1.impersonating with
  | none => exact h
  | some imp =>
    dsimp only
    by_cases hc : shouldRespondMode cfg = true ∧ draw > cfg.frequencyThreshold ∧
        RESTRICTED_AREAS.headD "" ≠ u2.room
    · rw [if_pos hc]
      exact cacheInst_retrieve cfg st.1 u imp i h
    · rw [if_neg hc]
      exact h

/-- One heard message preserves the identity of every cached instance. -/
theorem cacheInst_hearInner (cfg : Config) (u2 : RoomUser) (draw : Nat) (rng : List Nat)
    (s : BotState) (msg : Msg) (u : String) (i : Nat) (h : cacheInst s u = some i) :
    cacheInst (hearInner cfg u2 draw rng s msg).1 u = some i := by
  unfold hearInner
  split
  · exact cacheInst_hearRespondPart cfg u2 draw rng msg _ u i
      (cacheInst_afterTrainPart cfg s msg u i h)
  · exact h

/-- Any single event of normal operation preserves the identity of every
cached instance (entries are never evicted or replaced by new objects). -/
theorem cacheInst_runOp (cfg : Config) (s : BotState) (op : Op) (u : String) (i : Nat)
    (h : cacheInst s u = some i) : cacheInst (runOp cfg s op) u = some i := by
  cases op with
  | setImpersonating v => exact h
  | hear ev =>
    unfold runOp
    dsimp only
    cases huv : ev.userVar with
    | none => exact h
    | some ru =>
      simp only [hearHandler]
      by_cases hr : RESTRICTED_AREAS.headD "" ≠ ru.room
      · rw [if_pos hr]
        exact cacheInst_hearInner cfg ru ev.draw ev.rng s ev.msg u i h
      · rw [if_neg hr]
        exact h

/-- Any sequence of events of normal operation preserves the identity of
every cached instance. -/
theorem cacheInst_runOps (cfg : Config) (ops : List Op) :
    ∀ (s : BotState) (u : String) (i : Nat), cacheInst s u = some i →
      cacheInst (runOps cfg s ops) u = some i := by
  induction ops with
  | nil => intro s u i h; exact h
  | cons op ops ih =>
    intro s u i h
    exact ih (runOp cfg s op) u i (cacheInst_runOp cfg s op u i h)

/-- C2: once a user's model has been looked up, every later lookup for that
user — after any sequence of normal-operation events — returns the
identical model instance (same allocation identity) and leaves the process
state unchanged: only the first lookup decodes persisted bytes and
constructs a model, and cache entries are never evicted. -/
theorem robotRetrieve_identity (cfg : Config) (s : BotState) (u : String) (ops : List Op) :
    (robotRetrieve cfg (runOps cfg (robotRetrieve cfg s u).2 ops) u).1.instId =
      (robotRetrieve cfg s u).1.instId ∧
    (robotRetrieve cfg (runOps cfg (robotRetrieve cfg s u).2 ops) u).2 =
      runOps cfg (robotRetrieve cfg s u).2 ops := by
  have h0 : cacheInst (robotRetrieve cfg s u).2 u = some (robotRetrieve cfg s u).1.instId := by
    rw [cacheInst, robotRetrieve_cache_self]
    rfl
  have h1 := cacheInst_runOps cfg ops _ u _ h0
  obtain ⟨e, hg, hi⟩ := Option.map_eq_some'.mp h1
  rw [robotRetrieve_hit cfg _ u e hg]
  exact ⟨hi, rfl⟩

/-! ## Handler lemmas -/

/-- The training branch emits exactly one effect: the brain write of the
encoded post-training snapshot under the user's key. -/
theorem trainStep_effects (cfg : Config) (s : BotState) (msg : Msg) :
    (trainStep cfg s msg).2 =
      [Effect.brainSet (storeKey msg.userId)
        (encodeBytes ((robotRetrieve cfg s msg.userId).1.model.train msg.text).exportSnapshot)] := rfl

/-- The brain after the training branch: the prior brain with the encoded
post-training snapshot written under the user's key. -/
theorem trainStep_brain (cfg : Config) (s : BotState) (msg : Msg) :
    (trainStep cfg s msg).1.brain =
      setA (robotRetrieve cfg s msg.userId).2.brain (storeKey msg.userId)
        (encodeBytes ((robotRetrieve cfg s msg.userId).1.model.train msg.text).exportSnapshot) := rfl

/-- The training branch never changes who is being impersonated. -/
theorem trainStep_impersonating (cfg : Config) (s : BotState) (msg : Msg) :
    (trainStep cfg s msg).1.impersonating = s.impersonating :=
  robotRetrieve_impersonating cfg s msg.userId

/-- The state left by the (possibly skipped) training branch keeps the
impersonation state. -/
theorem afterTrainPart_impersonating (cfg : Config) (s : BotState) (msg : Msg) :
    (afterTrainPart cfg s msg).1.impersonating = s.impersonating := by
  unfold afterTrainPart
  split
  · exact trainStep_impersonating cfg s msg
  · rfl

/-- The training branch never schedules a chat reply. -/
theorem afterTrainPart_no_send (cfg : Config) (s : BotState) (msg : Msg) (t : String) :
    Effect.scheduleSend t ∉ (afterTrainPart cfg s msg).2 := by
  unfold afterTrainPart
  split
  · rw [trainStep_effects]
    intro hmem
    simp at hmem
  · intro hmem
    simp at hmem

/-- The response branch never writes the brain. -/
theorem hearRespondPart_brain (cfg : Config) (u : RoomUser) (draw : Nat)
    (rng : List Nat) (msg : Msg) (st : BotState × List Effect) :
    (hearRespondPart cfg u draw rng msg st).1.brain = st.1.brain := by
  unfold hearRespondPart
  cases himp : st.1.impersonating with
  | none => rfl
  | some imp =>
    dsimp only
    by_cases hc : shouldRespondMode cfg = true ∧ draw > cfg.frequencyThreshold ∧
        RESTRICTED_AREAS.headD "" ≠ u.room
    · rw [if_pos hc]
      exact robotRetrieve_brain cfg st.1 imp
    · rw [if_neg hc]

/-- The response branch only appends to the effects of the training branch. -/
theorem hearRespondPart_mem (cfg : Config) (u : RoomUser) (draw : Nat)
    (rng : List Nat) (msg : Msg) (st : BotState × List Effect) (e : Effect)
    (h : e ∈ st.2) : e ∈ (hearRespondPart cfg u draw rng msg st).2 := by
  unfold hearRespondPart
  cases himp : st.1.impersonating with
  | none => exact h
  | some imp =>
    dsimp only
    by_cases hc : shouldRespondMode cfg = true ∧ draw > cfg.frequencyThreshold ∧
        RESTRICTED_AREAS.headD "" ≠ u.room
    · rw [if_pos hc]
      exact List.mem_append_left _ h
    · rw [if_neg hc]
      exact h

/-- A scheduled reply can only come out of the response branch, whose gate
requires the random draw to exceed the threshold. -/
theorem hearRespondPart_send (cfg : Config) (u : RoomUser) (draw : Nat)
    (rng : List Nat) (msg : Msg) (st : BotState × List Effect) (t : String)
    (hno : Effect.scheduleSend t ∉ st.2)
    (h : Effect.scheduleSend t ∈ (hearRespondPart cfg u draw rng msg st).2) :
    draw > cfg.frequencyThreshold := by
  unfold hearRespondPart at h
  cases himp : st.1.impersonating with
  | none =>
    rw [himp] at h
    exact absurd h hno
  | some imp =>
    by_cases hc : shouldRespondMode cfg = true ∧ draw > cfg.frequencyThreshold ∧
        RESTRICTED_AREAS.headD "" ≠ u.room
    · exact hc.2.1
    · simp only [himp] at h
      rw [if_neg hc] at h
      exact absurd h hno

/-- A scheduled reply from the whole handler requires the random draw to
have exceeded the threshold (the gate is the single comparison at
line 129). -/
theorem send_requires_draw (cfg : Config) (uv : Option RoomUser) (draw : Nat)
    (rng : List Nat) (s : BotState) (msg : Msg) (t : String)
    (h : Effect.scheduleSend t ∈ hearEffects (hearHandler cfg uv draw rng s msg)) :
    draw > cfg.frequencyThreshold := by
  cases uv with
  | none => exact absurd h (List.not_mem_nil _)
  | some ru =>
    simp only [hearHandler] at h
    by_cases hr : RESTRICTED_AREAS.headD "" ≠ ru.room
    · rw [if_pos hr] at h
      have h2 : Effect.scheduleSend t ∈ (hearInner cfg ru draw rng s msg).2 := h
      unfold hearInner at h2
      by_cases hg : msg.text ≠ "" ∧ hubotMessageTest cfg.name cfg.robotAlias msg.text = false
      · rw [if_pos hg] at h2
        exact hearRespondPart_send cfg ru draw rng msg _ t
          (afterTrainPart_no_send cfg s msg t) h2
      · rw [if_neg hg] at h2
        exact absurd h2 (List.not_mem_nil _)
    · rw [if_neg hr] at h
      exact absurd h (List.not_mem_nil _)

/-- Bound of the modelled underscore generator: `_.random(0, 100)` never
exceeds 100 (it is inclusive of 100, not bounded by it strictly). -/
theorem underscoreRandom_le (num den : Nat) (h : num < den) :
    underscoreRandom num den 0 100 ≤ 100 := by
  unfold underscoreRandom
  norm_num
  have hd : 0 < den := Nat.lt_of_le_of_lt (Nat.zero_le num) h
  have h1 : num * 101 < 101 * den := by omega
  have h2 : num * 101 / den < 101 := (Nat.div_lt_iff_lt_mul hd).mpr h1
  omega

/-! ## Claim theorems -/

/-- C1: the claim states that no operation in the message-handling flow
raises a fatal fault and that the hear handler always runs to completion.
The code contradicts it: the handler's first expression reads `user.room`
with the variable `user` unbound, so every heard message — any text, any
room, any mode, any state — throws `ReferenceError: user is not defined`
before doing anything else. -/
theorem hear_handler_always_throws (cfg : Config) (draw : Nat) (rng : List Nat)
    (s : BotState) (msg : Msg) :
    hearHandlerActual cfg draw rng s msg =
      Except.error (JsError.referenceError "user") := rfl

/-- C2: repeated cache lookups for the same user within one process return
the identical Sequence Model instance: after a first `robotRetrieve`, any
sequence of normal-operation events later, `robotRetrieve` for that user
returns an entry with the same allocation identity and leaves the state
unchanged — no second decode, no second construction, no eviction. -/
theorem robotRetrieve_identity_claim (cfg : Config) (s : BotState) (u : String)
    (ops : List Op) :
    (robotRetrieve cfg (runOps cfg (robotRetrieve cfg s u).2 ops) u).1.instId =
      (robotRetrieve cfg s u).1.instId ∧
    (robotRetrieve cfg (runOps cfg (robotRetrieve cfg s u).2 ops) u).2 =
      runOps cfg (robotRetrieve cfg s u).2 ops :=
  robotRetrieve_identity cfg s u ops

/-- C3: on a cache miss with the persisted value absent, or present but not
decoding to a valid snapshot object, `robotRetrieve` returns a freshly
constructed empty Sequence Model (allocation identity `s.nextId`, the table
empty) instead of surfacing a fault. -/
theorem robotRetrieve_recovers_empty (cfg : Config) (s : BotState) (u : String)
    (hmiss : getA s.cache u = none)
    (hdata : getA s.brain (storeKey u) = none ∨
      decodeBytes ((getA s.brain (storeKey u)).getD []) = none) :
    (robotRetrieve cfg s u).1.model = newMarkov cfg ∧
    (robotRetrieve cfg s u).1.model.table = [] ∧
    (robotRetrieve cfg s u).1.instId = s.nextId := by
  have hb : decodeBytes ((getA s.brain (storeKey u)).getD []) = none := by
    rcases hdata with h | h
    · rw [h]
      rfl
    · exact h
  simp [robotRetrieve, hmiss, hb, Markov.importSnapshot, newMarkov]

/-- Witness for C3 at a concrete pristine state. -/
theorem robotRetrieve_recovers_empty_witness :
    getA stateEmpty.cache "u1" = none ∧
    (getA stateEmpty.brain (storeKey "u1") = none ∨
      decodeBytes ((getA stateEmpty.brain (storeKey "u1")).getD []) = none) ∧
    ((robotRetrieve cfgTrain stateEmpty "u1").1.model = newMarkov cfgTrain ∧
     (robotRetrieve cfgTrain stateEmpty "u1").1.model.table = [] ∧
     (robotRetrieve cfgTrain stateEmpty "u1").1.instId = stateEmpty.nextId) :=
  ⟨rfl, Or.inl rfl, robotRetrieve_recovers_empty cfgTrain stateEmpty "u1" rfl (Or.inl rfl)⟩

/-- C4: whenever the training branch runs for a heard message (training
mode, non-empty text not addressed to the robot, handler past the room
guard), the encoded exported snapshot of the just-trained model is written
to the brain under `impersonateMarkov-` ++ the user's id — the key the
retrieval path reads — both as an emitted effect and in the resulting
state. -/
theorem train_event_persists (cfg : Config) (u : RoomUser) (draw : Nat)
    (rng : List Nat) (s : BotState) (msg : Msg)
    (hroom : RESTRICTED_AREAS.headD "" ≠ u.room)
    (htext : msg.text ≠ "")
    (hmatch : hubotMessageTest cfg.name cfg.robotAlias msg.text = false)
    (htrain : shouldTrain cfg = true) :
    Effect.brainSet (storeKey msg.userId)
        (encodeBytes ((robotRetrieve cfg s msg.userId).1.model.train msg.text).exportSnapshot)
      ∈ hearEffects (hearHandler cfg (some u) draw rng s msg) ∧
    getA (hearState s (hearHandler cfg (some u) draw rng s msg)).brain (storeKey msg.userId) =
      some (encodeBytes ((robotRetrieve cfg s msg.userId).1.model.train msg.text).exportSnapshot) ∧
    storeKey msg.userId = "impersonateMarkov-" ++ msg.userId := by
  have hh : hearHandler cfg (some u) draw rng s msg =
      Except.ok (hearRespondPart cfg u draw rng msg (afterTrainPart cfg s msg)) := by
    unfold hearHandler hearInner
    dsimp only
    rw [if_pos hroom, if_pos ⟨htext, hmatch⟩]
  have hat : afterTrainPart cfg s msg = trainStep cfg s msg := by
    unfold afterTrainPart
    rw [if_pos htrain]
  rw [hh]
  refine ⟨?_, ?_, rfl⟩
  · show _ ∈ (hearRespondPart cfg u draw rng msg (afterTrainPart cfg s msg)).2
    apply hearRespondPart_mem
    rw [hat, trainStep_effects]
    exact List.mem_singleton_self _
  · show getA (hearRespondPart cfg u draw rng msg (afterTrainPart cfg s msg)).1.brain _ = _
    rw [hearRespondPart_brain, hat, trainStep_brain, getA_setA_self]

/-- Witness for C4 at a concrete message in training mode. -/
theorem train_event_persists_witness :
    RESTRICTED_AREAS.headD "" ≠ userLobby.room ∧
    msgHello.text ≠ "" ∧
    hubotMessageTest cfgTrain.name cfgTrain.robotAlias msgHello.text = false ∧
    shouldTrain cfgTrain = true ∧
    (Effect.brainSet (storeKey msgHello.userId)
        (encodeBytes ((robotRetrieve cfgTrain stateEmpty msgHello.userId).1.model.train msgHello.text).exportSnapshot)
      ∈ hearEffects (hearHandler cfgTrain (some userLobby) 0 [] stateEmpty msgHello) ∧
    getA (hearState stateEmpty (hearHandler cfgTrain (some userLobby) 0 [] stateEmpty msgHello)).brain
        (storeKey msgHello.userId) =
      some (encodeBytes ((robotRetrieve cfgTrain stateEmpty msgHello.userId).1.model.train msgHello.text).exportSnapshot) ∧
    storeKey msgHello.userId = "impersonateMarkov-" ++ msgHello.userId) :=
  ⟨by decide, by decide, by decide, by decide,
   train_event_persists cfgTrain userLobby 0 [] stateEmpty msgHello
     (by decide) (by decide) (by decide) (by decide)⟩

/-- C5 counterexample: the claim describes the draw as uniform on `[0,100)`.
With the declared dependency underscore ~1.7.0, `_.random(0, 100)` is
inclusive: for the legal `Math.random()` output 100/101 the draw is exactly
100 — outside `[0,100)` — and with the default threshold 50 a reply IS
attempted on that draw, so a reply is not attempted "only when a draw in
[0,100) exceeds the threshold". -/
theorem underscore_random_draw_reaches_100 :
    100 < 101 ∧
    underscoreRandom 100 101 0 100 = 100 ∧
    ¬ underscoreRandom 100 101 0 100 < 100 ∧
    Effect.scheduleSend ((robotRetrieve cfgRespond stateImp "v").1.model.respond [] msgHello.text)
      ∈ hearEffects (hearHandler cfgRespond (some userLobby)
          (underscoreRandom 100 101 0 100) [] stateImp msgHello) :=
  ⟨by decide, by decide, by decide, by decide⟩

/-- C5 (amended): a generated reply is attempted only when the single
random integer draw — uniform on `[0,100]` INCLUSIVE under underscore's
`_.random(0, 100)` — strictly exceeds the configured threshold; in
particular a reply is only ever attempted with the threshold below 100, so
with the threshold set to 100 a reply is never attempted, and the gate is
one threshold comparison of one draw. -/
theorem frequency_gate (cfg : Config) (uv : Option RoomUser) (num den : Nat)
    (rng : List Nat) (s : BotState) (msg : Msg) (t : String)
    (hden : num < den)
    (hsend : Effect.scheduleSend t ∈
      hearEffects (hearHandler cfg uv (underscoreRandom num den 0 100) rng s msg)) :
    underscoreRandom num den 0 100 > cfg.frequencyThreshold ∧
    underscoreRandom num den 0 100 ≤ 100 ∧
    cfg.frequencyThreshold ≠ 100 := by
  have h1 := send_requires_draw cfg uv (underscoreRandom num den 0 100) rng s msg t hsend
  have h2 := underscoreRandom_le num den hden
  exact ⟨h1, h2, by omega⟩

/-- Witness for the amended C5 at a concrete responding scenario. -/
theorem frequency_gate_witness :
    51 < 101 ∧
    Effect.scheduleSend "" ∈ hearEffects (hearHandler cfgRespond (some userLobby)
        (underscoreRandom 51 101 0 100) [] stateImp msgHello) ∧
    (underscoreRandom 51 101 0 100 > cfgRespond.frequencyThreshold ∧
     underscoreRandom 51 101 0 100 ≤ 100 ∧
     cfgRespond.frequencyThreshold ≠ 100) :=
  ⟨by decide, by decide,
   frequency_gate cfgRespond (some userLobby) 51 101 [] stateImp msgHello ""
     (by decide) (by decide)⟩

/-- C6: the claim says responding in a restricted room is suppressed by a
membership check against the message's room field.  The code never consults
the message's room: for a message from the restricted room (as for every
other message) it throws `ReferenceError` while evaluating
`RESTRICTED_AREAS[0] != user.room` with `user` unbound, so no reply is sent
only because the whole handler crashes first. -/
theorem restricted_room_throws (cfg : Config) (draw : Nat) (rng : List Nat)
    (s : BotState) (msg : Msg) (h : msg.room ∈ RESTRICTED_AREAS) :
    hearHandlerActual cfg draw rng s msg =
      Except.error (JsError.referenceError "user") := rfl

/-- Witness for C6 at a concrete message from the room `general`. -/
theorem restricted_room_throws_witness :
    msgGeneral.room ∈ RESTRICTED_AREAS ∧
    hearHandlerActual cfgTrain 0 [] stateEmpty msgGeneral =
      Except.error (JsError.referenceError "user") :=
  ⟨by decide, restricted_room_throws cfgTrain 0 [] stateEmpty msgGeneral (by decide)⟩

/-- C7 counterexample: with the impersonated user's model empty, `respond`
returns the empty string, and the caller does NOT suppress the reply: the
handler's effects contain a scheduled send of the empty message. -/
theorem empty_response_scheduled :
    (robotRetrieve cfgRespond stateImp "v").1.model.respond [] msgHello.text = "" ∧
    hearEffects (hearHandler cfgRespond (some userLobby) 51 [] stateImp msgHello) =
      [Effect.scheduleSend ""] :=
  ⟨by decide, by decide⟩

/-- C7 (amended): whenever the response branch runs, the caller schedules
sending exactly the string `respond` returned, with no emptiness check —
an empty generation result is sent like any other reply rather than
suppressed. -/
theorem respond_result_always_scheduled (cfg : Config) (u : RoomUser) (draw : Nat)
    (rng : List Nat) (s : BotState) (msg : Msg) (imp : String)
    (hroom : RESTRICTED_AREAS.headD "" ≠ u.room)
    (htext : msg.text ≠ "")
    (hmatch : hubotMessageTest cfg.name cfg.robotAlias msg.text = false)
    (himp : s.impersonating = some imp)
    (hmode : shouldRespondMode cfg = true)
    (hdraw : draw > cfg.frequencyThreshold) :
    Effect.scheduleSend
        ((robotRetrieve cfg (afterTrainPart cfg s msg).1 imp).1.model.respond rng msg.text)
      ∈ hearEffects (hearHandler cfg (some u) draw rng s msg) := by
  unfold hearHandler hearInner
  dsimp only
  rw [if_pos hroom, if_pos ⟨htext, hmatch⟩]
  have himp2 : (afterTrainPart cfg s msg).1.impersonating = some imp := by
    rw [afterTrainPart_impersonating]
    exact himp
  show Effect.scheduleSend _ ∈ (hearRespondPart cfg u draw rng msg (afterTrainPart cfg s msg)).2
  unfold hearRespondPart
  simp only [himp2]
  rw [if_pos ⟨hmode, hdraw, hroom⟩]
  exact List.mem_append_right _ (List.mem_singleton_self _)

/-- Witness for the amended C7: the empty response is scheduled for
sending. -/
theorem respond_result_always_scheduled_witness :
    RESTRICTED_AREAS.headD "" ≠ userLobby.room ∧
    msgHello.text ≠ "" ∧
    hubotMessageTest cfgRespond.name cfgRespond.robotAlias msgHello.text = false ∧
    stateImp.impersonating = some "v" ∧
    shouldRespondMode cfgRespond = true ∧
    51 > cfgRespond.frequencyThreshold ∧
    Effect.scheduleSend
        ((robotRetrieve cfgRespond (afterTrainPart cfgRespond stateImp msgHello).1 "v").1.model.respond [] msgHello.text)
      ∈ hearEffects (hearHandler cfgRespond (some userLobby) 51 [] stateImp msgHello) :=
  ⟨by decide, by decide, by decide, by decide, by decide, by decide,
   respond_result_always_scheduled cfgRespond userLobby 51 [] stateImp msgHello "v"
     (by decide) (by decide) (by decide) (by decide) (by decide) (by decide)⟩

/-- C9: training on a text whose tokenization (under the model's flags)
yields fewer than `minWords` tokens leaves the model — in particular its
Transition Table — unchanged. -/
theorem train_below_minWords_noop (m : Markov) (text : String)
    (h : (tokenize m.caseSensitive m.stripPunctuation text).length < m.minWords) :
    m.train text = m := by
  unfold Markov.train
  rw [if_pos h]

/-- Witness for C9: a two-token text against a three-word minimum. -/
theorem train_below_minWords_noop_witness :
    (tokenize markovMin3.caseSensitive markovMin3.stripPunctuation "a b").length <
      markovMin3.minWords ∧
    markovMin3.train "a b" = markovMin3 :=
  ⟨by decide, train_below_minWords_noop markovMin3 "a b" (by decide)⟩

/-- C10: a heard message whose text matches the bot-address pattern is
ignored by the handler: no model is trained, nothing is persisted and no
reply is scheduled — the handler either throws (the `user` binding being
absent) or returns the state unchanged with no effects. -/
theorem addressed_message_no_effects (cfg : Config) (uv : Option RoomUser)
    (draw : Nat) (rng : List Nat) (s : BotState) (msg : Msg)
    (h : hubotMessageTest cfg.name cfg.robotAlias msg.text = true) :
    hearHandler cfg uv draw rng s msg = Except.error (JsError.referenceError "user") ∨
    hearHandler cfg uv draw rng s msg = Except.ok (s, []) := by
  cases uv with
  | none => exact Or.inl rfl
  | some ru =>
    refine Or.inr ?_
    have hcond : ¬ (msg.text ≠ "" ∧
        hubotMessageTest cfg.name cfg.robotAlias msg.text = false) := by
      intro hc
      rw [h] at hc
      simp at hc
    unfold hearHandler hearInner
    dsimp only
    by_cases hr : RESTRICTED_AREAS.headD "" ≠ ru.room
    · rw [if_pos hr, if_neg hcond]
    · rw [if_neg hr]

/-- Witness for C10 at a concrete addressed message. -/
theorem addressed_message_no_effects_witness :
    hubotMessageTest cfgTrain.name cfgTrain.robotAlias msgAddressed.text = true ∧
    (hearHandler cfgTrain (some userLobby) 0 [] stateEmpty msgAddressed =
        Except.error (JsError.referenceError "user") ∨
     hearHandler cfgTrain (some userLobby) 0 [] stateEmpty msgAddressed =
        Except.ok (stateEmpty, [])) :=
  ⟨by decide,
   addressed_message_no_effects cfgTrain (some userLobby) 0 [] stateEmpty msgAddressed
     (by decide)⟩
